import Mathlib

/-!
Verification of the changelog merge/archival core of gitlab-loglady.

The Python source (src/changelog_generator.py, src/slack_publisher.py,
src/config.py, generate_changelog.py) is shallowly embedded here: strings
become `List Char`, the regex-based replace of `append_to_year_changelog`
becomes an explicit scan with the same semantics as
`re.sub(key + ".*?" + lookahead, template, text, flags=re.DOTALL)`, and the
fallible template expansion of `re.sub` is modelled with `Option`.
-/

namespace Loglady

/-- Strings are modelled as lists of characters. -/
abbrev Chars := List Char

/-- Predicate `hasPrefixC pat l` is true when `pat` is a prefix of `l`
(the literal-match step of the regex scan; Python `str.startswith`). -/
def hasPrefixC : Chars → Chars → Bool
  | [], _ => true
  | _ :: _, [] => false
  | p :: ps, c :: cs => p = c && hasPrefixC ps cs

/-- Predicate `hasSubC pat l` is true when `pat` occurs as a contiguous substring of
`l`; models `re.search(re.escape(pat), l)`, a literal substring search. -/
def hasSubC (pat : Chars) : Chars → Bool
  | [] => hasPrefixC pat []
  | c :: cs => hasPrefixC pat (c :: cs) || hasSubC pat cs

/-- The whitespace characters stripped by Python `str.rstrip()` (the ASCII
ones; rendered entries only ever end in `*` and newlines). -/
def isPySpace (c : Char) : Bool :=
  c = ' ' || c = '\t' || c = '\n' || c = '\r' || c = Char.ofNat 11 || c = Char.ofNat 12

/-- Python `str.rstrip()`: drop trailing whitespace. -/
def rstrip (l : Chars) : Chars :=
  (l.reverse.dropWhile isPySpace).reverse

/-- The identity key of a milestone block:
`f"**Changelog - {milestone_name}**"` (changelog_generator.py line 230). -/
def keyFor (name : Chars) : Chars :=
  "**Changelog - ".toList ++ name ++ "**".toList

/-- The lookahead delimiter of the replace pattern: `\n\*\*Changelog - `
(changelog_generator.py line 239). -/
def headerMarker : Chars := "\n**Changelog - ".toList

/-- The separator-and-timestamp footer appended to a fresh entry before the
merge: `f"\n---\n*Generated on {ts}*\n\n"` (line 221). -/
def footerOf (ts : Chars) : Chars :=
  "\n---\n*Generated on ".toList ++ ts ++ "*\n\n".toList

/-- The full new entry handed to the merge: rendered changelog plus footer. -/
def newEntryOf (entry ts : Chars) : Chars := entry ++ footerOf ts

/-- Scan forward to the first position where `marker` matches (or the end),
returning the remaining suffix from that position.  This is where the
non-greedy `.*?(?=\n\*\*Changelog - |\Z)` of the replace pattern stops. -/
def skipBody (marker : Chars) : Chars → Chars
  | [] => []
  | c :: cs => if hasPrefixC marker (c :: cs) then c :: cs else skipBody marker cs

/-- The characters consumed by `.*?` before `skipBody`'s stop position. -/
def takeBody (marker : Chars) : Chars → Chars
  | [] => []
  | c :: cs => if hasPrefixC marker (c :: cs) then [] else c :: takeBody marker cs

theorem skipBody_length_le (marker : Chars) : ∀ l : Chars, (skipBody marker l).length ≤ l.length
  | [] => by simp [skipBody]
  | c :: cs => by
    simp only [skipBody]
    by_cases h : hasPrefixC marker (c :: cs) = true
    · simp [h]
    · simp only [h, if_false]
      exact Nat.le_succ_of_le (skipBody_length_le marker cs)

/-- Is `c` an octal digit (sre template octal escapes). -/
def isOct (c : Char) : Bool := decide ('0' ≤ c) && decide (c ≤ '7')

/-- Numeric value of a digit character. -/
def digitVal (c : Char) : Nat := c.toNat - 48

/-- Take up to two octal digits (the continuation of a `\0` octal escape in
an sre replacement template). -/
def takeOct2 : Chars → Chars × Chars
  | [] => ([], [])
  | [d1] => if isOct d1 then ([d1], []) else ([], [d1])
  | d1 :: d2 :: rest =>
    if isOct d1 && isOct d2 then ([d1, d2], rest)
    else if isOct d1 then ([d1], d2 :: rest)
    else ([], d1 :: d2 :: rest)

theorem takeOct2_length_le : ∀ l : Chars, (takeOct2 l).2.length ≤ l.length
  | [] => by simp [takeOct2]
  | [d1] => by
    by_cases h : isOct d1 = true <;> simp [takeOct2, h]
  | d1 :: d2 :: rest => by
    simp only [takeOct2]
    split
    · simp
      omega
    · split
      · simp
      · simp

/-- Octal value of a digit list (most significant first). -/
def octValList (ds : Chars) : Nat := ds.foldl (fun a c => a * 8 + digitVal c) 0

/-- Control-character escapes recognised in an sre replacement template
(`\a \b \f \n \r \t \v`). -/
def ctrlOf (c : Char) : Option Char :=
  if c = 'n' then some '\n'
  else if c = 't' then some '\t'
  else if c = 'r' then some '\r'
  else if c = 'a' then some (Char.ofNat 7)
  else if c = 'b' then some (Char.ofNat 8)
  else if c = 'f' then some (Char.ofNat 12)
  else if c = 'v' then some (Char.ofNat 11)
  else none

/-- One escape of an `re.sub` replacement template (CPython
`sre_parse.parse_template`) for a pattern with zero capture groups, as used
at changelog_generator.py lines 241-246.  The argument is the template text
after a backslash; the result is the produced fragment and the remaining
template text, or `none` for the `re.error` raised on a bad escape or an
invalid group reference: the pattern has no groups, so every `\1`..`\99`
and every `\g<name>` other than `\g<0>` (the whole `matched` text) is
invalid; unknown escapes of ASCII letters are errors; unknown escapes of
other characters are kept verbatim; `\0` starts an octal escape of up to
three octal digits; a lone trailing backslash is an error. -/
def expandEscape (matched : Chars) : Chars → Option (Chars × Chars)
  | [] => none
  | e :: cs1 =>
    if e = '\\' then some (['\\'], cs1)
    else if e = 'g' then
      match cs1 with
      | '<' :: '0' :: '>' :: cs2 => some (matched, cs2)
      | _ => none
    else if e = '0' then
      some ([Char.ofNat (octValList (takeOct2 cs1).1 % 256)], (takeOct2 cs1).2)
    else if e.isDigit then
      match cs1 with
      | d2 :: d3 :: cs2 =>
        if isOct e && isOct d2 && isOct d3 then
          if digitVal e * 64 + digitVal d2 * 8 + digitVal d3 ≤ 255 then
            some ([Char.ofNat (digitVal e * 64 + digitVal d2 * 8 + digitVal d3)], cs2)
          else none
        else none
      | _ => none
    else
      match ctrlOf e with
      | some ch => some ([ch], cs1)
      | none =>
        if e.isAlpha then none
        else some (['\\', e], cs1)

theorem expandEscape_rest_lt (matched : Chars) :
    ∀ l p, expandEscape matched l = some p → p.2.length < l.length := by
  intro l p h
  match l with
  | [] => exact absurd h (by simp [expandEscape])
  | e :: cs1 =>
    have hto := takeOct2_length_le cs1
    simp only [expandEscape] at h
    repeat' split at h
    all_goals cases h
    all_goals try simp
    all_goals omega

/-- The recursion of `expandTemplate`, made structural on a fuel counter:
each step consumes at least one template character, so fuel equal to the
template length always suffices (`expandTemplateFuel_congr`). -/
def expandTemplateFuel (matched : Chars) : Nat → Chars → Option Chars
  | _, [] => some []
  | 0, _ :: _ => none
  | fuel + 1, c :: cs =>
    if c = '\\' then
      match expandEscape matched cs with
      | none => none
      | some p => (expandTemplateFuel matched fuel p.2).map (fun r => p.1 ++ r)
    else (expandTemplateFuel matched fuel cs).map (fun r => c :: r)

/-- Expansion of a whole `re.sub` replacement template for a pattern with
zero capture groups: literal characters pass through, each backslash escape
is handled by `expandEscape`; `none` models the `re.error` of a bad
template. -/
def expandTemplate (matched t : Chars) : Option Chars :=
  expandTemplateFuel matched t.length t

/-- The recursion of `subAllM`, made structural on a fuel counter: every
step consumes at least one character of the scanned text, so fuel equal to
the text length always suffices (`subAllFuel_congr`). -/
def subAllFuel (k : Char) (ks template marker : Chars) : Nat → Chars → Option Chars
  | _, [] => some []
  | 0, _ :: _ => none
  | fuel + 1, c :: cs =>
    if hasPrefixC (k :: ks) (c :: cs) then
      match expandTemplate ((k :: ks) ++ takeBody marker (cs.drop ks.length)) template with
      | none => none
      | some repl =>
        (subAllFuel k ks template marker fuel (skipBody marker (cs.drop ks.length))).map
          (fun r => repl ++ r)
    else (subAllFuel k ks template marker fuel cs).map (fun r => c :: r)

/-- The scan-and-replace of
`re.sub(key ++ ".*?" ++ "(?=marker|end)", template, l, flags=re.DOTALL)`
for a non-empty literal `key = k :: ks`: every non-overlapping occurrence of
the key, scanning left to right, together with the minimal body extending to
the next `marker` match (or the end of text), is replaced by the expanded
template; scanning resumes at the stop position. -/
def subAllM (k : Char) (ks template marker l : Chars) : Option Chars :=
  subAllFuel k ks template marker l.length l

/-- Wrapper for `re.sub` over a general literal key.  The key handed to it by the merge,
`keyFor name`, always starts with `**`, so the empty-key branch is
unreachable. -/
def subAllC (key template marker l : Chars) : Option Chars :=
  match key with
  | [] => some l
  | k :: ks => subAllM k ks template marker l

/-- The pure content-level semantics of `append_to_year_changelog`
(changelog_generator.py lines 219-260): append the timestamp footer to the
rendered entry; if the key occurs in the existing year-file text, replace
every matched span by `new_entry.rstrip() + "\n\n"` via `re.sub` (the
replacement is a template, so expansion can raise, modelled by `none`);
otherwise the new file content is the new entry followed by the existing
text. -/
def mergeText (name ts entry existing : Chars) : Option Chars :=
  let newEntry := newEntryOf entry ts
  if hasSubC (keyFor name) existing then
    subAllC (keyFor name) (rstrip newEntry ++ "\n\n".toList) headerMarker existing
  else some (newEntry ++ existing)

/-- A GitLab issue as consumed by the generator: the fields of the issue
dictionaries read by `changelog_generator.py` (`time_estimate` is the
`time_stats['time_estimate']` seconds value; `project_name` is read with
default `'unknown'` but is always populated by the client, so it is a plain
field here). -/
structure Issue where
  title : Chars
  iid : Nat
  labels : List Chars
  project_name : Chars
  project_url : Chars
  time_estimate : Nat
deriving DecidableEq

/-- Python `dict.get` on an association list (keys are unique in every dict the
program builds, so first-match lookup coincides with Python's dict). -/
def lookupA {α : Type} : List (Chars × α) → Chars → Option α
  | [], _ => none
  | (k, v) :: rest, key => if k = key then some v else lookupA rest key

/-- Python `defaultdict(list)`: append `i` to the bucket of `k`, creating the
bucket at the end (Python dicts preserve insertion order). -/
def groupAdd (g : List (Chars × List Issue)) (k : Chars) (i : Issue) : List (Chars × List Issue) :=
  match g with
  | [] => [(k, [i])]
  | (k', l) :: rest => if k' = k then (k', l ++ [i]) :: rest else (k', l) :: groupAdd rest k i

/-- The fallback bucket name. -/
def uncategorized : Chars := "Uncategorized".toList

def group_issues_by_product_go (rtp : List (Chars × Chars)) (grouped : List (Chars × List Issue)) :
    List Issue → List (Chars × List Issue)
  | [] => grouped
  | i :: rest =>
    match lookupA rtp i.project_url with
    | none => group_issues_by_product_go rtp (groupAdd grouped uncategorized i) rest
    | some p =>
      if p.isEmpty then group_issues_by_product_go rtp (groupAdd grouped uncategorized i) rest
      else group_issues_by_product_go rtp (groupAdd grouped p i) rest

/-- Method `ChangelogGenerator.group_issues_by_product` (changelog_generator.py
lines 21-41) with a string-valued `repos_to_products` mapping: look each
issue's `project_url` up among the mapping's keys; a missing key or a falsy
value (`if not product`, i.e. `None` or an empty string) sends the issue to
`Uncategorized`. -/
def group_issues_by_product (rtp : List (Chars × Chars)) (issues : List Issue) :
    List (Chars × List Issue) :=
  group_issues_by_product_go rtp [] issues

def group_issues_cli_go (mapping : List (Chars × List Chars)) (grouped : List (Chars × List Issue)) :
    List Issue → Option (List (Chars × List Issue))
  | [] => some grouped
  | i :: rest =>
    match lookupA mapping i.project_url with
    | none => group_issues_cli_go mapping (groupAdd grouped uncategorized i) rest
    | some repos =>
      if repos.isEmpty then group_issues_cli_go mapping (groupAdd grouped uncategorized i) rest
      else none

/-- The same source function `group_issues_by_product`, but at the type it
is actually invoked at by `generate_changelog.py` `main` (line 184): the
generator is constructed with `repository_mapping`, the product-name →
repository-list dictionary of `parse_repository_mapping`, so `dict.get`
looks the issue's `project_url` up among product names and a hit returns a
list.  A truthy (non-empty) list then reaches `grouped[product].append`,
which raises `TypeError` (a list is unhashable), modelled by `none`; `None`
or an empty list is falsy and sends the issue to `Uncategorized`. -/
def group_issues_by_product_cli (mapping : List (Chars × List Chars)) (issues : List Issue) :
    Option (List (Chars × List Issue)) :=
  group_issues_cli_go mapping [] issues

/-- A label is an alias label when it starts with `@`
(`l.startswith('@')`). -/
def isAliasLabel : Chars → Bool
  | '@' :: _ => true
  | _ => false

/-- Python `', '.join(labels)`. -/
def joinComma : List Chars → Chars
  | [] => []
  | [l] => l
  | l :: ls => l ++ ", ".toList ++ joinComma ls

/-- Method `ChangelogGenerator.format_issue_line` (lines 43-66). -/
def format_issue_line (issue : Issue) : Chars :=
  let labels := issue.labels.filter (fun l => !isAliasLabel l)
  let issueRef := issue.project_name ++ "#".toList ++ Nat.toDigits 10 issue.iid
  if labels.isEmpty then
    "* ".toList ++ issue.title ++ " (".toList ++ issueRef ++ ")".toList
  else
    "* ".toList ++ issue.title ++ " (".toList ++ issueRef ++ ") (".toList
      ++ joinComma labels ++ ")".toList

/-- Lexicographic (code-point) string comparison, Python `str.__le__`. -/
def lexLe : Chars → Chars → Bool
  | [], _ => true
  | _ :: _, [] => false
  | a :: as, b :: bs => if a = b then lexLe as bs else decide (a < b)

/-- Python `str.lower()` (the titles compared by the sort key; ASCII case fold). -/
def lowerC (l : Chars) : Chars := l.map Char.toLower

def insertLe {α : Type} (le : α → α → Bool) (x : α) : List α → List α
  | [] => [x]
  | y :: ys => if le x y then x :: y :: ys else y :: insertLe le x ys

/-- Stable sort by a boolean total preorder (models Python's stable
`sorted`). -/
def sortLe {α : Type} (le : α → α → Bool) : List α → List α
  | [] => []
  | x :: xs => insertLe le x (sortLe le xs)

/-- The issue sort key: `lambda x: x['title'].lower()` (line 111). -/
def titleLe (a b : Issue) : Bool := lexLe (lowerC a.title) (lowerC b.title)

/-- The product sort key: `lambda x: (x == 'Uncategorized', x)`
(lines 100-103); `False` sorts before `True`, so `Uncategorized` goes
last. -/
def productLe (a b : Chars) : Bool :=
  let ua := decide (a = uncategorized)
  let ub := decide (b = uncategorized)
  if ua = ub then lexLe a b else !ua

/-- A Python `datetime` restricted to its date fields (only `.year` and
`strftime('%Y-%m-%d')` are consumed). -/
structure PyDate where
  year : Nat
  month : Nat
  day : Nat
deriving DecidableEq

def padLeft (w : Nat) (n : Nat) : Chars :=
  List.replicate (w - (Nat.toDigits 10 n).length) '0' ++ Nat.toDigits 10 n

/-- Format `d.strftime('%Y-%m-%d')` for a present date, `'N/A'` otherwise
(lines 90-91); zero-padded fields (years are 4-digit in every GitLab
date). -/
def fmtDate : Option PyDate → Chars
  | none => "N/A".toList
  | some d => padLeft 4 d.year ++ "-".toList ++ padLeft 2 d.month ++ "-".toList ++ padLeft 2 d.day

/-- The three characters that sit between the two dates in the header line
of changelog_generator.py line 94.  The source file's bytes there are
`C3 A2  E2 80 A0  E2 80 99`, i.e. the characters U+00E2 U+2020 U+2019
(`â`, dagger, right single quote) — a double-encoding mojibake of the
intended arrow U+2192. -/
def arrowGlyph : Chars := [Char.ofNat 226, Char.ofNat 8224, Char.ofNat 8217]

/-- Format `f"{x:.1f}"` for the exact rational `num / den`: one decimal digit,
round half to even.  (Python formats the nearest binary double; the two
agree on the seconds→hours/days ratios used here except for values whose
decimal expansion sits astride a double rounding boundary, which no claim
exercises.) -/
def fmtFix1 (num den : Nat) : Chars :=
  let t10 := num * 10
  let q := t10 / den
  let r := t10 % den
  let q2 :=
    if 2 * r > den then q + 1
    else if 2 * r < den then q
    else if q % 2 = 1 then q + 1 else q
  Nat.toDigits 10 (q2 / 10) ++ ".".toList ++ Nat.toDigits 10 (q2 % 10)

def concatC : List Chars → Chars
  | [] => []
  | l :: ls => l ++ concatC ls

def issueLines (ls : List Chars) : Chars := concatC (ls.map (fun l => l ++ ['\n']))

/-- One product section of the changelog body (lines 106-116): bucket
header, one line per issue sorted case-insensitively by title, then a blank
line. -/
def productSection (grouped : List (Chars × List Issue)) (p : Chars) : Chars :=
  let pis := (lookupA grouped p).getD []
  "**".toList ++ p ++ "** (".toList ++ Nat.toDigits 10 pis.length ++ " issues)\n".toList
    ++ issueLines ((sortLe titleLe pis).map format_issue_line) ++ "\n".toList

/-- Method `ChangelogGenerator.generate_changelog` (lines 68-138): header line
with the (mojibake) arrow, product sections in sorted order with
`Uncategorized` last, separator, total line, optional time estimate, final
newline. -/
def generate_changelog (rtp : List (Chars × Chars)) (name : Chars)
    (start_date due_date : Option PyDate) (issues : List Issue) : Chars :=
  let start_str := fmtDate start_date
  let due_str := fmtDate due_date
  let grouped := group_issues_by_product rtp issues
  let sorted_products := sortLe productLe (grouped.map (fun kv => kv.1))
  let tsum := (issues.map (fun i => i.time_estimate)).foldl (· + ·) 0
  "**Changelog - ".toList ++ name ++ "** (".toList ++ start_str ++ " ".toList ++ arrowGlyph
    ++ " ".toList ++ due_str ++ ")\n\n".toList
    ++ concatC (sorted_products.map (productSection grouped))
    ++ "---\n".toList ++ "Total: ".toList ++ Nat.toDigits 10 issues.length
    ++ " issues closed".toList
    ++ (if tsum > 0 then
          " | Estimated: ".toList ++ fmtFix1 tsum 3600 ++ "h (".toList
            ++ fmtFix1 tsum 28800 ++ "d)".toList
        else [])
    ++ "\n".toList

/-- Four consecutive decimal digits at the head of the text, as matched by
`re.search(r'(\d{4})', name)` at one position. -/
def fourDigitAt : Chars → Option Nat
  | a :: b :: c :: d :: _ =>
    if a.isDigit && b.isDigit && c.isDigit && d.isDigit then
      some (digitVal a * 1000 + digitVal b * 100 + digitVal c * 10 + digitVal d)
    else none
  | _ => none

/-- The leftmost 4-digit run in the milestone title
(`re.search(r'(\d{4})', milestone_name)` then `int(...)`, lines 199-201). -/
def extractYear4 : Chars → Option Nat
  | [] => none
  | c :: cs =>
    match fourDigitAt (c :: cs) with
    | some y => some y
    | none => extractYear4 cs

/-- The year-derivation chain of `append_to_year_changelog` (lines
189-203): due-date year, else start-date year, else first 4-digit run in
the title, else the current year at generation time (injected here as
`currentYear`). -/
def milestoneYear (start_date due_date : Option PyDate) (name : Chars) (currentYear : Nat) : Nat :=
  match due_date with
  | some d => d.year
  | none =>
    match start_date with
    | some s => s.year
    | none =>
      match extractYear4 name with
      | some y => y
      | none => currentYear

/-- The file-system operations `append_to_year_changelog` can perform on
the archive. -/
inductive FsOp where
  | makeDirs (d : Chars)
  | openTrunc (p : Chars)
  | writeChunk (p : Chars) (data : Chars)
  | closeFile (p : Chars)
  | renameFile (src dst : Chars)
deriving DecidableEq

/-- Path `os.path.join(archive_dir, f"{milestone_year}.md")` (line 209). -/
def yearFilePath (archiveDir : Chars) (year : Nat) : Chars :=
  archiveDir ++ "/".toList ++ Nat.toDigits 10 year ++ ".md".toList

/-- The trace of file-system operations performed by
`append_to_year_changelog` (changelog_generator.py lines 168-260), with the
wall clock injected: `ts` is the `datetime.now()` timestamp string and
`currentYear` is `datetime.now().year`, and `existing` is the current
content of the year file (empty when the file does not exist).  The year
and the rendered entry are computed inside, as in the source; then
`os.makedirs` on the archive dir, then `open(year_file, 'w')` — a
truncating open of the year file itself — followed by the write(s) and the
close.  The replace path writes the substituted content in one write; the
prepend path writes `new_entry` and then, when the existing content is
non-empty, the existing content as a second write.  `none` models the
`re.error` of a bad replacement template. -/
def append_to_year_ops (rtp : List (Chars × Chars)) (name : Chars)
    (start_date due_date : Option PyDate) (issues : List Issue)
    (archiveDir ts : Chars) (currentYear : Nat) (existing : Chars) : Option (List FsOp) :=
  let year := milestoneYear start_date due_date name currentYear
  let yf := yearFilePath archiveDir year
  let entry := generate_changelog rtp name start_date due_date issues
  let newEntry := newEntryOf entry ts
  if hasSubC (keyFor name) existing then
    match subAllC (keyFor name) (rstrip newEntry ++ "\n\n".toList) headerMarker existing with
    | none => none
    | some updated =>
      some [FsOp.makeDirs archiveDir, FsOp.openTrunc yf, FsOp.writeChunk yf updated,
        FsOp.closeFile yf]
  else
    some ([FsOp.makeDirs archiveDir, FsOp.openTrunc yf, FsOp.writeChunk yf newEntry]
      ++ (if existing.isEmpty then [] else [FsOp.writeChunk yf existing])
      ++ [FsOp.closeFile yf])

def isRename : FsOp → Bool
  | FsOp.renameFile _ _ => true
  | _ => false

/-- Content of the file at `target` after a prefix of the operation trace
has executed, starting from content `orig` (what a crash after that prefix
would leave on disk). -/
def fileAfter (orig target : Chars) (ops : List FsOp) : Chars :=
  ops.foldl (fun cur op =>
    match op with
    | FsOp.openTrunc p => if p = target then [] else cur
    | FsOp.writeChunk p d => if p = target then cur ++ d else cur
    | _ => cur) orig

/-- Python `text.split('\n')` (always at least one element). -/
def splitNl : Chars → List Chars
  | [] => [[]]
  | c :: cs =>
    if c = '\n' then [] :: splitNl cs
    else
      match splitNl cs with
      | [] => [[c]]
      | l :: ls => (c :: l) :: ls

/-- Python `'\n'.join(lines)`. -/
def joinNl : List Chars → Chars
  | [] => []
  | [l] => l
  | l :: ls => l ++ '\n' :: joinNl ls

/-- The accumulation loop of `SlackPublisher._chunk_message`
(slack_publisher.py lines 35-56): greedily pack whole lines into chunks of
at most `maxLen` counting one extra character per line for its newline;
when a line does not fit, emit the current chunk (even when it is empty)
and start a new one with that line. -/
def chunkLoop (maxLen : Nat) (current : List Chars) (curLen : Nat) : List Chars → List Chars
  | [] => if current.isEmpty then [] else [joinNl current]
  | line :: rest =>
    if curLen + (line.length + 1) > maxLen then
      joinNl current :: chunkLoop maxLen [line] (line.length + 1) rest
    else chunkLoop maxLen (current ++ [line]) (curLen + (line.length + 1)) rest

/-- Method `SlackPublisher._chunk_message(text, max_length)` (lines 21-56; the
publisher calls it with the default `max_length = 3900`): texts within the
limit are returned as a single chunk; longer texts are split on newlines
and repacked. -/
def chunk_message (maxLen : Nat) (text : Chars) : List Chars :=
  if text.length ≤ maxLen then [text]
  else chunkLoop maxLen [] 0 (splitNl text)

/-- A sample timestamp, standing for one `datetime.now()` reading. -/
def sampleTs : Chars := "2025-06-07 08:09:10".toList

/-- The changelog the code renders for a milestone titled `A` with no
dates and no issues. -/
def sampleEntryA : Chars := generate_changelog [] "A".toList none none []

/-- The changelog the code renders for milestone `A` due 2025-03-04 with
no issues. -/
def sampleEntryDue : Chars := generate_changelog [] "A".toList none (some ⟨2025, 3, 4⟩) []

/-- The operation trace of a prepend-path merge of `sampleEntryDue` into a
year file currently holding `old\n`. -/
def sampleTrace : List FsOp :=
  [FsOp.makeDirs "arch".toList,
   FsOp.openTrunc (yearFilePath "arch".toList 2025),
   FsOp.writeChunk (yearFilePath "arch".toList 2025) (newEntryOf sampleEntryDue sampleTs),
   FsOp.writeChunk (yearFilePath "arch".toList 2025) "old\n".toList,
   FsOp.closeFile (yearFilePath "arch".toList 2025)]

/-! Basic facts about the literal-match scan. -/

theorem hasPrefixC_append (p r : Chars) : hasPrefixC p (p ++ r) = true := by
  induction p with
  | nil => simp [hasPrefixC]
  | cons c cs ih => simp [hasPrefixC, ih]

theorem hasSubC_of_prefixC (p l : Chars) (h : hasPrefixC p l = true) : hasSubC p l = true := by
  cases l with
  | nil => simpa [hasSubC] using h
  | cons c cs => simp [hasSubC, h]

theorem hasSubC_cons_of (p : Chars) (c : Char) (cs : Chars) (h : hasSubC p cs = true) :
    hasSubC p (c :: cs) = true := by
  simp [hasSubC, h]

theorem hasSubC_of_split (p a b : Chars) : hasSubC p (a ++ (p ++ b)) = true := by
  induction a with
  | nil => exact hasSubC_of_prefixC _ _ (hasPrefixC_append p b)
  | cons x a' ih => exact hasSubC_cons_of _ _ _ ih

theorem skipBody_stops (m b rest : Chars) (h0 : hasPrefixC m rest = true)
    (hno : ∀ i, i < b.length → hasPrefixC m ((b ++ rest).drop i) = false) :
    skipBody m (b ++ rest) = rest := by
  induction b with
  | nil =>
    cases rest with
    | nil => rfl
    | cons c cs => simp [skipBody, h0]
  | cons x b' ih =>
    have h0' : hasPrefixC m (x :: (b' ++ rest)) = false := by
      have := hno 0 (by simp)
      simpa using this
    have ih' := ih (fun i hi => by
      have := hno (i + 1) (by simpa using Nat.succ_lt_succ hi)
      simpa using this)
    simp [skipBody, h0', ih']

theorem takeBody_stops (m b rest : Chars) (h0 : hasPrefixC m rest = true)
    (hno : ∀ i, i < b.length → hasPrefixC m ((b ++ rest).drop i) = false) :
    takeBody m (b ++ rest) = b := by
  induction b with
  | nil =>
    cases rest with
    | nil => rfl
    | cons c cs => simp [takeBody, h0]
  | cons x b' ih =>
    have h0' : hasPrefixC m (x :: (b' ++ rest)) = false := by
      have := hno 0 (by simp)
      simpa using this
    have ih' := ih (fun i hi => by
      have := hno (i + 1) (by simpa using Nat.succ_lt_succ hi)
      simpa using this)
    simp [takeBody, h0', ih']

theorem skipBody_none (m l : Chars)
    (hno : ∀ i, i < l.length → hasPrefixC m (l.drop i) = false) :
    skipBody m l = [] := by
  induction l with
  | nil => rfl
  | cons c cs ih =>
    have h0 : hasPrefixC m (c :: cs) = false := by
      have := hno 0 (by simp)
      simpa using this
    have ih' := ih (fun i hi => by
      have := hno (i + 1) (by simpa using Nat.succ_lt_succ hi)
      simpa using this)
    simp [skipBody, h0, ih']

theorem takeBody_none (m l : Chars)
    (hno : ∀ i, i < l.length → hasPrefixC m (l.drop i) = false) :
    takeBody m l = l := by
  induction l with
  | nil => rfl
  | cons c cs ih =>
    have h0 : hasPrefixC m (c :: cs) = false := by
      have := hno 0 (by simp)
      simpa using this
    have ih' := ih (fun i hi => by
      have := hno (i + 1) (by simpa using Nat.succ_lt_succ hi)
      simpa using this)
    simp [takeBody, h0, ih']

/-- Fuel does not matter once it is at least the template length. -/
theorem expandTemplateFuel_congr (matched : Chars) :
    ∀ f1 f2 l, l.length ≤ f1 → l.length ≤ f2 →
      expandTemplateFuel matched f1 l = expandTemplateFuel matched f2 l := by
  intro f1
  induction f1 with
  | zero =>
    intro f2 l h1 h2
    have hl : l = [] := List.length_eq_zero.mp (Nat.le_zero.mp h1)
    subst hl
    cases f2 <;> simp [expandTemplateFuel]
  | succ g ih =>
    intro f2 l h1 h2
    cases l with
    | nil => cases f2 <;> simp [expandTemplateFuel]
    | cons c cs =>
      cases f2 with
      | zero => simp at h2
      | succ g2 =>
        simp only [expandTemplateFuel]
        by_cases hc : c = '\\'
        · simp only [hc, if_true]
          cases he : expandEscape matched cs with
          | none => rfl
          | some p =>
            have hlt := expandEscape_rest_lt matched cs p he
            have hcs : cs.length ≤ g := by simpa using h1
            have hcs2 : cs.length ≤ g2 := by simpa using h2
            show Option.map (fun r => p.1 ++ r) (expandTemplateFuel matched g p.2) =
              Option.map (fun r => p.1 ++ r) (expandTemplateFuel matched g2 p.2)
            rw [ih g2 p.2 (by omega) (by omega)]
        · simp only [hc, if_false]
          have hcs : cs.length ≤ g := by simpa using h1
          have hcs2 : cs.length ≤ g2 := by simpa using h2
          rw [ih g2 cs hcs hcs2]

theorem expandTemplate_nil (matched : Chars) : expandTemplate matched [] = some [] := rfl

theorem expandTemplate_cons_no (matched : Chars) (c : Char) (cs : Chars) (hc : ¬(c = '\\')) :
    expandTemplate matched (c :: cs) = (expandTemplate matched cs).map (fun r => c :: r) := by
  simp only [expandTemplate, List.length_cons, expandTemplateFuel, hc, if_false]

theorem expandTemplate_cons_esc_none (matched : Chars) (cs : Chars)
    (he : expandEscape matched cs = none) :
    expandTemplate matched ('\\' :: cs) = none := by
  simp only [expandTemplate, List.length_cons, expandTemplateFuel, if_true, he]

theorem expandTemplate_cons_esc (matched : Chars) (cs : Chars) (p : Chars × Chars)
    (he : expandEscape matched cs = some p) :
    expandTemplate matched ('\\' :: cs) = (expandTemplate matched p.2).map (fun r => p.1 ++ r) := by
  have hlt := expandEscape_rest_lt matched cs p he
  simp only [expandTemplate, List.length_cons, expandTemplateFuel, if_true, he]
  rw [expandTemplateFuel_congr matched cs.length p.2.length p.2 (by omega) (by omega)]

/-- A template without backslashes expands to itself (the fast literal path
of `re.sub`). -/
theorem expandTemplate_no_backslash (matched : Chars) :
    ∀ t : Chars, '\\' ∉ t → expandTemplate matched t = some t := by
  intro t
  induction t with
  | nil =>
    intro h
    exact expandTemplate_nil matched
  | cons c cs ih =>
    intro h
    have hc : ¬(c = '\\') := fun he => h (by simp [he])
    have hcs : '\\' ∉ cs := fun hm => h (List.mem_cons_of_mem _ hm)
    rw [expandTemplate_cons_no matched c cs hc, ih hcs]
    rfl

/-! Facts about the scan-and-replace `subAllM`. -/

theorem subAllFuel_congr (k : Char) (ks t m : Chars) :
    ∀ f1 f2 l, l.length ≤ f1 → l.length ≤ f2 →
      subAllFuel k ks t m f1 l = subAllFuel k ks t m f2 l := by
  intro f1
  induction f1 with
  | zero =>
    intro f2 l h1 h2
    have hl : l = [] := List.length_eq_zero.mp (Nat.le_zero.mp h1)
    subst hl
    cases f2 <;> simp [subAllFuel]
  | succ g ih =>
    intro f2 l h1 h2
    cases l with
    | nil => cases f2 <;> simp [subAllFuel]
    | cons c cs =>
      cases f2 with
      | zero => simp at h2
      | succ g2 =>
        have hcs : cs.length ≤ g := by simpa using h1
        have hcs2 : cs.length ≤ g2 := by simpa using h2
        simp only [subAllFuel]
        by_cases hg : hasPrefixC (k :: ks) (c :: cs) = true
        · simp only [hg, if_true]
          cases hx : expandTemplate ((k :: ks) ++ takeBody m (cs.drop ks.length)) t with
          | none => rfl
          | some repl =>
            have hsk : (skipBody m (cs.drop ks.length)).length ≤ cs.length := by
              have h3 := skipBody_length_le m (cs.drop ks.length)
              have h4 : (cs.drop ks.length).length ≤ cs.length := by simp
              omega
            show Option.map _ (subAllFuel k ks t m g (skipBody m (cs.drop ks.length))) =
              Option.map _ (subAllFuel k ks t m g2 (skipBody m (cs.drop ks.length)))
            rw [ih g2 (skipBody m (cs.drop ks.length)) (by omega) (by omega)]
        · rw [if_neg hg, if_neg hg, ih g2 cs hcs hcs2]

theorem subAllM_match (k : Char) (ks t m : Chars) (c : Char) (cs : Chars)
    (hg : hasPrefixC (k :: ks) (c :: cs) = true) :
    subAllM k ks t m (c :: cs) =
      match expandTemplate ((k :: ks) ++ takeBody m (cs.drop ks.length)) t with
      | none => none
      | some repl =>
        (subAllM k ks t m (skipBody m (cs.drop ks.length))).map (fun r => repl ++ r) := by
  show subAllFuel k ks t m (cs.length + 1) (c :: cs) = _
  simp only [subAllFuel, hg, if_true]
  cases hx : expandTemplate ((k :: ks) ++ takeBody m (cs.drop ks.length)) t with
  | none => rfl
  | some repl =>
    have hsk : (skipBody m (cs.drop ks.length)).length ≤ cs.length := by
      have h3 := skipBody_length_le m (cs.drop ks.length)
      have h4 : (cs.drop ks.length).length ≤ cs.length := by simp
      omega
    show Option.map _ (subAllFuel k ks t m cs.length (skipBody m (cs.drop ks.length))) =
      Option.map _ (subAllM k ks t m (skipBody m (cs.drop ks.length)))
    rw [show subAllM k ks t m (skipBody m (cs.drop ks.length)) =
        subAllFuel k ks t m (skipBody m (cs.drop ks.length)).length
          (skipBody m (cs.drop ks.length)) from rfl,
      subAllFuel_congr k ks t m cs.length (skipBody m (cs.drop ks.length)).length _ hsk
        (le_refl _)]

theorem subAllM_cons_no (k : Char) (ks t m : Chars) (c : Char) (cs : Chars)
    (h : hasPrefixC (k :: ks) (c :: cs) = false) :
    subAllM k ks t m (c :: cs) = (subAllM k ks t m cs).map (fun r => c :: r) := by
  show subAllFuel k ks t m (cs.length + 1) (c :: cs) = (subAllM k ks t m cs).map (fun r => c :: r)
  simp only [subAllFuel, h, if_false]
  rfl

theorem subAllM_skip_prefix (k : Char) (ks t m : Chars) (a : Chars) (r : Chars)
    (ha : ∀ i, i < a.length → hasPrefixC (k :: ks) ((a ++ r).drop i) = false) :
    subAllM k ks t m (a ++ r) = (subAllM k ks t m r).map (fun x => a ++ x) := by
  induction a with
  | nil =>
    cases hr : subAllM k ks t m r <;> simp [hr]
  | cons x a' ih =>
    have h0 := ha 0 (by simp)
    simp only [List.drop_zero, List.cons_append] at h0
    rw [List.cons_append, subAllM_cons_no k ks t m x (a' ++ r) h0,
      ih (fun i hi => by
        have := ha (i + 1) (by simpa using Nat.succ_lt_succ hi)
        simpa using this)]
    cases subAllM k ks t m r <;> simp

theorem subAllM_no_occ (k : Char) (ks t m l : Chars)
    (h : ∀ i, i < l.length → hasPrefixC (k :: ks) (l.drop i) = false) :
    subAllM k ks t m l = some l := by
  induction l with
  | nil => rfl
  | cons c cs ih =>
    have h0 : hasPrefixC (k :: ks) (c :: cs) = false := by
      have := h 0 (by simp)
      simpa using this
    rw [subAllM_cons_no k ks t m c cs h0,
      ih (fun i hi => by simpa using h (i + 1) (by simpa using Nat.succ_lt_succ hi))]
    rfl

theorem subAllM_head (k : Char) (ks t m b rest : Chars)
    (h0 : hasPrefixC m rest = true)
    (hb : ∀ i, i < b.length → hasPrefixC m ((b ++ rest).drop i) = false) :
    subAllM k ks t m ((k :: ks) ++ (b ++ rest)) =
      match expandTemplate ((k :: ks) ++ b) t with
      | none => none
      | some repl => (subAllM k ks t m rest).map (fun r => repl ++ r) := by
  have hg : hasPrefixC (k :: ks) (k :: (ks ++ (b ++ rest))) = true := by
    have := hasPrefixC_append (k :: ks) (b ++ rest)
    simpa using this
  show subAllM k ks t m (k :: (ks ++ (b ++ rest))) =
    match expandTemplate (k :: (ks ++ b)) t with
    | none => none
    | some repl => (subAllM k ks t m rest).map (fun r => repl ++ r)
  rw [subAllM_match k ks t m k (ks ++ (b ++ rest)) hg]
  simp only [List.drop_left, takeBody_stops m b rest h0 hb,
    skipBody_stops m b rest h0 hb, List.cons_append]

theorem subAllM_head_end (k : Char) (ks t m b : Chars)
    (hb : ∀ i, i < b.length → hasPrefixC m (b.drop i) = false) :
    subAllM k ks t m ((k :: ks) ++ b) =
      match expandTemplate ((k :: ks) ++ b) t with
      | none => none
      | some repl => some repl := by
  have hg : hasPrefixC (k :: ks) (k :: (ks ++ b)) = true := by
    have := hasPrefixC_append (k :: ks) b
    simpa using this
  show subAllM k ks t m (k :: (ks ++ b)) =
    match expandTemplate (k :: (ks ++ b)) t with
    | none => none
    | some repl => some repl
  rw [subAllM_match k ks t m k (ks ++ b) hg]
  simp only [List.drop_left, takeBody_none m b hb, skipBody_none m b hb, List.cons_append]
  cases hx : expandTemplate (k :: (ks ++ b)) t with
  | none => simp [hx]
  | some repl => simp [hx, subAllM, subAllFuel]

/-! Facts about `rstrip` and the merge template. -/

theorem rstrip_append_nl2 (x : Chars) : rstrip (x ++ ['\n', '\n']) = rstrip x := by
  simp [rstrip, List.dropWhile, isPySpace]

theorem rstrip_append_star (x : Chars) : rstrip (x ++ ['*']) = x ++ ['*'] := by
  simp [rstrip, List.dropWhile, isPySpace]

theorem rstrip_newEntry (entry ts : Chars) :
    rstrip (newEntryOf entry ts) = (entry ++ "\n---\n*Generated on ".toList ++ ts) ++ ['*'] := by
  have h1 : newEntryOf entry ts =
      ((entry ++ "\n---\n*Generated on ".toList ++ ts) ++ ['*']) ++ ['\n', '\n'] := by
    simp only [newEntryOf, footerOf]
    rw [show ("*\n\n".toList : Chars) = ['*'] ++ ['\n', '\n'] from rfl]
    simp [List.append_assoc]
  rw [h1, rstrip_append_nl2, rstrip_append_star]

/-- The template `new_entry.rstrip() + "\n\n"` recovers `new_entry` exactly: the footer
ends with `*` followed by exactly two newlines. -/
theorem template_eq_newEntry (entry ts : Chars) :
    rstrip (newEntryOf entry ts) ++ "\n\n".toList = newEntryOf entry ts := by
  rw [rstrip_newEntry]
  simp only [newEntryOf, footerOf]
  rw [show ("\n\n".toList : Chars) = ['\n', '\n'] from rfl,
    show ("*\n\n".toList : Chars) = ['*'] ++ ['\n', '\n'] from rfl]
  simp [List.append_assoc]

/-! Facts about the milestone key and the header marker. -/

theorem keyFor_cons (name : Chars) :
    keyFor name = '*' :: ('*' :: (("Changelog - ".toList ++ name) ++ "**".toList)) := rfl

theorem key_not_at_nl (name : Chars) (x : Chars) :
    hasPrefixC (keyFor name) ('\n' :: x) = false := by
  rw [keyFor_cons]
  simp [hasPrefixC]

theorem marker_prefixC_nl_key (name : Chars) (x : Chars) :
    hasPrefixC headerMarker ('\n' :: (keyFor name ++ x)) = true := by
  have h : keyFor name ++ x = "**Changelog - ".toList ++ (name ++ ("**".toList ++ x)) := by
    simp [keyFor, List.append_assoc]
  rw [show (headerMarker : Chars) = '\n' :: "**Changelog - ".toList from rfl]
  simp only [hasPrefixC, h]
  simp [hasPrefixC_append]

theorem mergeText_absent (name ts entry existing : Chars)
    (h : hasSubC (keyFor name) existing = false) :
    mergeText name ts entry existing = some (newEntryOf entry ts ++ existing) := by
  simp [mergeText, h]

theorem mergeText_present (name ts entry existing : Chars)
    (h : hasSubC (keyFor name) existing = true) :
    mergeText name ts entry existing =
      subAllC (keyFor name) (rstrip (newEntryOf entry ts) ++ "\n\n".toList)
        headerMarker existing := by
  simp [mergeText, h]

theorem subAllC_cons (k : Char) (ks t m l : Chars) :
    subAllC (k :: ks) t m l = subAllM k ks t m l := rfl

/-! Claim C1 -/

/-- C1 (amended): for a year-file of the form
`a ++ key ++ b ++ "\n**Changelog - " ++ c` in which the key occurs first at
the shown position and nowhere later, the merge replaces the span from the
key up to — but NOT including — the newline that precedes the next
start-of-line occurrence of the header prefix (the lookahead
`(?=\n\*\*Changelog - |\Z)` stops before that newline, which is therefore
preserved together with everything from the next header onward), or up to
the end of text when no next header follows, with the new entry trimmed of
trailing whitespace plus exactly two newlines; every byte before the key is
preserved unchanged. -/
theorem merge_replaces_span (name ts entry : Chars)
    (hbs : '\\' ∉ newEntryOf entry ts) :
    (∀ a b c : Chars,
      (∀ i, i < a.length → hasPrefixC (keyFor name)
        ((a ++ (keyFor name ++ (b ++ (headerMarker ++ c)))).drop i) = false) →
      (∀ i, i < b.length → hasPrefixC headerMarker ((b ++ (headerMarker ++ c)).drop i) = false) →
      (∀ i, i < (headerMarker ++ c).length → hasPrefixC (keyFor name)
        ((headerMarker ++ c).drop i) = false) →
      mergeText name ts entry (a ++ (keyFor name ++ (b ++ (headerMarker ++ c)))) =
        some (a ++ ((rstrip (newEntryOf entry ts) ++ "\n\n".toList) ++ (headerMarker ++ c)))) ∧
    (∀ a b : Chars,
      (∀ i, i < a.length → hasPrefixC (keyFor name)
        ((a ++ (keyFor name ++ b)).drop i) = false) →
      (∀ i, i < b.length → hasPrefixC headerMarker (b.drop i) = false) →
      mergeText name ts entry (a ++ (keyFor name ++ b)) =
        some (a ++ (rstrip (newEntryOf entry ts) ++ "\n\n".toList))) := by
  have hbsT : '\\' ∉ rstrip (newEntryOf entry ts) ++ "\n\n".toList := by
    rw [template_eq_newEntry entry ts]
    exact hbs
  obtain ⟨k, ks, hkk⟩ : ∃ k ks, keyFor name = k :: ks := ⟨_, _, keyFor_cons name⟩
  constructor
  · intro a b c ha hb hc
    have hsub : hasSubC (keyFor name) (a ++ (keyFor name ++ (b ++ (headerMarker ++ c)))) = true :=
      hasSubC_of_split (keyFor name) a (b ++ (headerMarker ++ c))
    rw [mergeText_present name ts entry _ hsub]
    rw [hkk] at ha hc ⊢
    rw [subAllC_cons, subAllM_skip_prefix k ks _ _ a _ ha,
      subAllM_head k ks _ _ b (headerMarker ++ c) (hasPrefixC_append headerMarker c) hb,
      expandTemplate_no_backslash ((k :: ks) ++ b) _ hbsT,
      subAllM_no_occ k ks _ _ (headerMarker ++ c) hc]
    simp
  · intro a b ha hb
    have hsub : hasSubC (keyFor name) (a ++ (keyFor name ++ b)) = true :=
      hasSubC_of_split (keyFor name) a b
    rw [mergeText_present name ts entry _ hsub]
    rw [hkk] at ha ⊢
    rw [subAllC_cons, subAllM_skip_prefix k ks _ _ a _ ha, subAllM_head_end k ks _ _ b hb,
      expandTemplate_no_backslash ((k :: ks) ++ b) _ hbsT]
    simp

/-- Witness for C1's theorem: a year file holding milestone A's block
followed by milestone B's block, and one where A's block is last. -/
theorem merge_replaces_span_witness :
    mergeText "A".toList sampleTs sampleEntryA
        ("pre\n".toList ++ (keyFor "A".toList ++ (" old\n".toList
          ++ (headerMarker ++ "B** r\n".toList)))) =
      some ("pre\n".toList ++ ((rstrip (newEntryOf sampleEntryA sampleTs) ++ "\n\n".toList)
        ++ (headerMarker ++ "B** r\n".toList))) ∧
    mergeText "A".toList sampleTs sampleEntryA
        ("pre\n".toList ++ (keyFor "A".toList ++ " old\n".toList)) =
      some ("pre\n".toList ++ (rstrip (newEntryOf sampleEntryA sampleTs) ++ "\n\n".toList)) := by
  constructor
  · exact (merge_replaces_span "A".toList sampleTs sampleEntryA (by decide)).1
      "pre\n".toList " old\n".toList "B** r\n".toList (by decide) (by decide) (by decide)
  · exact (merge_replaces_span "A".toList sampleTs sampleEntryA (by decide)).2
      "pre\n".toList " old\n".toList (by decide) (by decide)

set_option maxRecDepth 100000 in
/-- C1 counterexample to the claim as stated: the code's replaced span
stops BEFORE the newline that precedes the next header, so that newline
survives; the result is not the claimed
`before ++ trimmedEntry ++ "\n\n" ++ nextHeaderOnward`, which drops it. -/
theorem merge_replaces_span_cex :
    mergeText "A".toList sampleTs sampleEntryA
        "**Changelog - A** old\n**Changelog - B** rest\n".toList =
      some ((rstrip (newEntryOf sampleEntryA sampleTs) ++ "\n\n".toList)
        ++ "\n**Changelog - B** rest\n".toList) ∧
    ¬ mergeText "A".toList sampleTs sampleEntryA
        "**Changelog - A** old\n**Changelog - B** rest\n".toList =
      some ((rstrip (newEntryOf sampleEntryA sampleTs) ++ "\n\n".toList)
        ++ "**Changelog - B** rest\n".toList) := by
  constructor
  · decide
  · decide

/-! Claim C2 -/

/-- C2 (amended): merging the same milestone's rendered entry twice into an
initially EMPTY year-file is idempotent byte for byte once the timestamps
agree (the second merge replaces the whole block with the trimmed entry
plus two newlines, which reconstructs the new entry
`keyFor name ++ (erest ++ footerOf ts) = newEntryOf (keyFor name ++ erest) ts`
exactly).  When another milestone block follows the entry, idempotence
fails — the second merge inserts one extra newline before the following
header (see the counterexample). -/
theorem merge_idem_fresh (name ts erest : Chars)
    (hnomark : ∀ i, i < (erest ++ footerOf ts).length →
      hasPrefixC headerMarker ((erest ++ footerOf ts).drop i) = false)
    (hbs : '\\' ∉ newEntryOf (keyFor name ++ erest) ts) :
    mergeText name ts (keyFor name ++ erest) [] =
      some (keyFor name ++ (erest ++ footerOf ts)) ∧
    mergeText name ts (keyFor name ++ erest) (keyFor name ++ (erest ++ footerOf ts)) =
      some (keyFor name ++ (erest ++ footerOf ts)) := by
  obtain ⟨k, ks, hkk⟩ : ∃ k ks, keyFor name = k :: ks := ⟨_, _, keyFor_cons name⟩
  have habs : hasSubC (keyFor name) [] = false := by
    rw [hkk]
    rfl
  have hbsT : '\\' ∉ rstrip (newEntryOf (keyFor name ++ erest) ts) ++ "\n\n".toList := by
    rw [template_eq_newEntry]
    exact hbs
  constructor
  · rw [mergeText_absent name ts _ [] habs]
    simp [newEntryOf, List.append_assoc]
  · have hsub : hasSubC (keyFor name) (keyFor name ++ (erest ++ footerOf ts)) = true := by
      have := hasSubC_of_split (keyFor name) [] (erest ++ footerOf ts)
      simpa using this
    rw [mergeText_present name ts _ _ hsub]
    rw [hkk] at hbsT ⊢
    rw [subAllC_cons, subAllM_head_end k ks _ _ (erest ++ footerOf ts) hnomark,
      expandTemplate_no_backslash _ _ hbsT, template_eq_newEntry]
    simp [newEntryOf, List.append_assoc]

/-- Witness for C2's theorem: a concrete entry merged twice into a fresh
year file. -/
theorem merge_idem_fresh_witness :
    mergeText "A".toList sampleTs (keyFor "A".toList ++ " x\nbody\n".toList) [] =
      some (keyFor "A".toList ++ (" x\nbody\n".toList ++ footerOf sampleTs)) ∧
    mergeText "A".toList sampleTs (keyFor "A".toList ++ " x\nbody\n".toList)
        (keyFor "A".toList ++ (" x\nbody\n".toList ++ footerOf sampleTs)) =
      some (keyFor "A".toList ++ (" x\nbody\n".toList ++ footerOf sampleTs)) :=
  merge_idem_fresh "A".toList sampleTs " x\nbody\n".toList (by decide) (by decide)

set_option maxRecDepth 100000 in
/-- C2 counterexample: with milestone B's block following, the second merge
of the same rendered entry (same timestamp, so timestamp footers are
already normalized) does NOT reproduce the state after the first merge —
it inserts one extra newline before B's header. -/
theorem merge_idem_cex :
    mergeText "A".toList sampleTs sampleEntryA "**Changelog - B** z\n".toList =
      some (newEntryOf sampleEntryA sampleTs ++ "**Changelog - B** z\n".toList) ∧
    ¬ mergeText "A".toList sampleTs sampleEntryA
        (newEntryOf sampleEntryA sampleTs ++ "**Changelog - B** z\n".toList) =
      some (newEntryOf sampleEntryA sampleTs ++ "**Changelog - B** z\n".toList) := by
  constructor
  · decide
  · decide

/-! Claim C3 -/

/-- C3 (amended): `re.sub` is called without a `count` argument, so when
the key occurs twice in the year-file the merge silently replaces BOTH
matched spans with the replacement text, and no consistency fault of any
kind is raised. -/
theorem merge_replaces_all_spans (name ts entry : Chars)
    (hbs : '\\' ∉ newEntryOf entry ts) :
    ∀ a b1 b2 c : Chars,
      (∀ i, i < a.length → hasPrefixC (keyFor name)
        ((a ++ (keyFor name ++ (b1 ++ ('\n' :: (keyFor name
          ++ (b2 ++ (headerMarker ++ c))))))).drop i) = false) →
      (∀ i, i < b1.length → hasPrefixC headerMarker
        ((b1 ++ ('\n' :: (keyFor name ++ (b2 ++ (headerMarker ++ c))))).drop i) = false) →
      (∀ i, i < b2.length → hasPrefixC headerMarker
        ((b2 ++ (headerMarker ++ c)).drop i) = false) →
      (∀ i, i < (headerMarker ++ c).length → hasPrefixC (keyFor name)
        ((headerMarker ++ c).drop i) = false) →
      mergeText name ts entry
          (a ++ (keyFor name ++ (b1 ++ ('\n' :: (keyFor name
            ++ (b2 ++ (headerMarker ++ c))))))) =
        some (a ++ ((rstrip (newEntryOf entry ts) ++ "\n\n".toList)
          ++ ('\n' :: ((rstrip (newEntryOf entry ts) ++ "\n\n".toList)
            ++ (headerMarker ++ c))))) := by
  intro a b1 b2 c ha hb1 hb2 hc
  have hbsT : '\\' ∉ rstrip (newEntryOf entry ts) ++ "\n\n".toList := by
    rw [template_eq_newEntry entry ts]
    exact hbs
  obtain ⟨k, ks, hkk⟩ : ∃ k ks, keyFor name = k :: ks := ⟨_, _, keyFor_cons name⟩
  have hsub : hasSubC (keyFor name)
      (a ++ (keyFor name ++ (b1 ++ ('\n' :: (keyFor name
        ++ (b2 ++ (headerMarker ++ c))))))) = true :=
    hasSubC_of_split (keyFor name) a _
  rw [mergeText_present name ts entry _ hsub]
  have hm0 : hasPrefixC headerMarker
      ('\n' :: (keyFor name ++ (b2 ++ (headerMarker ++ c)))) = true :=
    marker_prefixC_nl_key name _
  have hnl : hasPrefixC (keyFor name)
      ('\n' :: (keyFor name ++ (b2 ++ (headerMarker ++ c)))) = false :=
    key_not_at_nl name _
  rw [hkk] at ha hb1 hc hm0 hnl ⊢
  rw [subAllC_cons, subAllM_skip_prefix k ks _ _ a _ ha,
    subAllM_head k ks _ _ b1 ('\n' :: ((k :: ks) ++ (b2 ++ (headerMarker ++ c)))) hm0 hb1,
    expandTemplate_no_backslash _ _ hbsT,
    subAllM_cons_no k ks _ _ '\n' ((k :: ks) ++ (b2 ++ (headerMarker ++ c))) hnl,
    subAllM_head k ks _ _ b2 (headerMarker ++ c) (hasPrefixC_append headerMarker c) hb2,
    expandTemplate_no_backslash _ _ hbsT,
    subAllM_no_occ k ks _ _ (headerMarker ++ c) hc]
  simp

set_option maxRecDepth 100000 in
/-- Witness for C3's theorem: milestone A's key occurs twice; both spans
are replaced. -/
theorem merge_replaces_all_spans_witness :
    mergeText "A".toList sampleTs sampleEntryA
        ([] ++ (keyFor "A".toList ++ (" one".toList ++ ('\n' :: (keyFor "A".toList
          ++ (" two".toList ++ (headerMarker ++ "B** x\n".toList))))))) =
      some ([] ++ ((rstrip (newEntryOf sampleEntryA sampleTs) ++ "\n\n".toList)
        ++ ('\n' :: ((rstrip (newEntryOf sampleEntryA sampleTs) ++ "\n\n".toList)
          ++ (headerMarker ++ "B** x\n".toList))))) :=
  merge_replaces_all_spans "A".toList sampleTs sampleEntryA (by decide) [] " one".toList
    " two".toList "B** x\n".toList (by decide) (by decide) (by decide) (by decide)

set_option maxRecDepth 100000 in
/-- C3 counterexample to the claim as stated: on a year-file where the key
occurs twice, the merge returns a result (no fault is surfaced) in which
the body ` two` of the SECOND span has also been replaced — more than the
first matching span was rewritten. -/
theorem merge_replaces_all_spans_cex :
    mergeText "A".toList sampleTs sampleEntryA
        "**Changelog - A** one\n**Changelog - A** two\n**Changelog - B** x\n".toList =
      some ((rstrip (newEntryOf sampleEntryA sampleTs) ++ "\n\n".toList)
        ++ ('\n' :: ((rstrip (newEntryOf sampleEntryA sampleTs) ++ "\n\n".toList)
          ++ "\n**Changelog - B** x\n".toList))) ∧
    hasSubC " two".toList ((rstrip (newEntryOf sampleEntryA sampleTs) ++ "\n\n".toList)
      ++ ('\n' :: ((rstrip (newEntryOf sampleEntryA sampleTs) ++ "\n\n".toList)
        ++ "\n**Changelog - B** x\n".toList))) = false := by
  constructor
  · decide
  · decide

/-! Claim C4 -/

/-- C4: when the key `**Changelog - <name>**` does not occur in the
year-file text, the merge result is the new entry (rendered entry plus
timestamp footer) followed by the existing text unchanged, byte for
byte. -/
theorem merge_prepends_when_absent (name ts entry existing : Chars)
    (h : hasSubC (keyFor name) existing = false) :
    mergeText name ts entry existing = some (newEntryOf entry ts ++ existing) := by
  simp [mergeText, h]

/-- Witness for C4's theorem: milestone B's block is already present and
survives unchanged right after the new entry for milestone A. -/
theorem merge_prepends_when_absent_witness :
    mergeText "A".toList sampleTs sampleEntryA "**Changelog - B** old\n".toList =
      some (newEntryOf sampleEntryA sampleTs ++ "**Changelog - B** old\n".toList) :=
  merge_prepends_when_absent "A".toList sampleTs sampleEntryA
    "**Changelog - B** old\n".toList (by decide)

/-! Claim C10 -/

set_option maxRecDepth 100000 in
/-- C10: the replacement handed to `re.sub` is the raw new entry, not
backslash-escaped; an issue title containing the two characters `\1` turns
the replacement into a template with an invalid group reference (the
pattern has no groups), so the merge raises `re.error` (modelled by
`none`) instead of inserting the rendered entry literally.  The second
conjunct records that the rendered entry indeed carries the backslash. -/
theorem merge_backslash_title_errors :
    mergeText "A".toList sampleTs
        (generate_changelog [] "A".toList none none
          [⟨"Fix \\1 bug".toList, 5, [], "repo".toList, "u".toList, 0⟩])
        "**Changelog - A** old\n".toList = none ∧
    '\\' ∈ generate_changelog [] "A".toList none none
      [⟨"Fix \\1 bug".toList, 5, [], "repo".toList, "u".toList, 0⟩] := by
  constructor
  · decide
  · decide

/-! Claim C5 -/

/-- Every trace of `append_to_year_changelog` opens the year file itself
with a truncating open and contains no rename (shared shape fact for the
atomicity and year-choice claims). -/
theorem append_ops_shape (rtp : List (Chars × Chars)) (name : Chars)
    (start_date due_date : Option PyDate) (issues : List Issue)
    (archiveDir ts : Chars) (currentYear : Nat) (existing : Chars) (ops : List FsOp)
    (h : append_to_year_ops rtp name start_date due_date issues archiveDir ts currentYear
      existing = some ops) :
    (∀ src dst, FsOp.renameFile src dst ∉ ops) ∧
    FsOp.openTrunc (yearFilePath archiveDir
      (milestoneYear start_date due_date name currentYear)) ∈ ops := by
  simp only [append_to_year_ops] at h
  split at h
  · split at h
    · cases h
    · cases h
      constructor
      · intro src dst hmem
        simp at hmem
      · simp
  · cases h
    constructor
    · intro src dst hmem
      by_cases he : existing.isEmpty = true <;> simp [he] at hmem
    · by_cases he : existing.isEmpty = true <;> simp [he]

/-- C5 (amended): the merge performs no temp-file-plus-rename at all:
every operation trace it can produce opens the year file itself in
truncating write mode and contains no rename operation, so an interruption
between the truncating open and the final write leaves a truncated year
file (exhibited concretely by the counterexample). -/
theorem merge_writes_direct (rtp : List (Chars × Chars)) (name : Chars)
    (start_date due_date : Option PyDate) (issues : List Issue)
    (archiveDir ts : Chars) (currentYear : Nat) (existing : Chars) (ops : List FsOp)
    (h : append_to_year_ops rtp name start_date due_date issues archiveDir ts currentYear
      existing = some ops) :
    (∀ src dst, FsOp.renameFile src dst ∉ ops) ∧
    FsOp.openTrunc (yearFilePath archiveDir
      (milestoneYear start_date due_date name currentYear)) ∈ ops :=
  append_ops_shape rtp name start_date due_date issues archiveDir ts currentYear existing
    ops h

set_option maxRecDepth 100000 in
/-- Witness for C5's theorem: the concrete prepend-path trace
`sampleTrace`. -/
theorem merge_writes_direct_witness :
    (∀ src dst, FsOp.renameFile src dst ∉ sampleTrace) ∧
    FsOp.openTrunc (yearFilePath "arch".toList
      (milestoneYear none (some ⟨2025, 3, 4⟩) "A".toList 2024)) ∈ sampleTrace :=
  merge_writes_direct [] "A".toList none (some ⟨2025, 3, 4⟩) [] "arch".toList sampleTs 2024
    "old\n".toList sampleTrace (by decide)

set_option maxRecDepth 100000 in
/-- C5 counterexample to the claim as stated: the trace writes the year
file directly — truncating open, then two writes, no temporary file and no
rename anywhere — and after the open plus the first write the on-disk
content is the new entry alone: neither the old content nor the complete
new content, so a failure at that point leaves a half-replaced file. -/
theorem merge_writes_direct_cex :
    append_to_year_ops [] "A".toList none (some ⟨2025, 3, 4⟩) [] "arch".toList sampleTs 2024
        "old\n".toList = some sampleTrace ∧
    sampleTrace.filter isRename = [] ∧
    fileAfter "old\n".toList (yearFilePath "arch".toList 2025) (sampleTrace.take 3) ≠
      "old\n".toList ∧
    fileAfter "old\n".toList (yearFilePath "arch".toList 2025) (sampleTrace.take 3) ≠
      newEntryOf sampleEntryDue sampleTs ++ "old\n".toList := by
  refine ⟨by decide, by decide, by decide, by decide⟩

/-! Claim C6 -/

/-- Function `extractYear4` returns exactly the value of the LEFTMOST run of four
decimal digits, the semantics of `re.search(r'(\d{4})', name)`. -/
theorem extractYear4_iff (name : Chars) (y : Nat) :
    extractYear4 name = some y ↔
      ∃ i, fourDigitAt (name.drop i) = some y ∧
        ∀ j, j < i → fourDigitAt (name.drop j) = none := by
  induction name with
  | nil =>
    constructor
    · intro h
      simp [extractYear4] at h
    · rintro ⟨i, hi, hmin⟩
      rw [List.drop_nil] at hi
      simp [fourDigitAt] at hi
  | cons c cs ih =>
    constructor
    · intro h
      cases h4 : fourDigitAt (c :: cs) with
      | some z =>
        have hz : extractYear4 (c :: cs) = some z := by
          simp [extractYear4, h4]
        rw [hz] at h
        cases h
        exact ⟨0, by simpa using h4, fun j hj => absurd hj (by omega)⟩
      | none =>
        have hrec : extractYear4 (c :: cs) = extractYear4 cs := by
          simp [extractYear4, h4]
        rw [hrec] at h
        obtain ⟨i, hi, hmin⟩ := ih.mp h
        refine ⟨i + 1, by simpa using hi, ?_⟩
        intro j hj
        cases j with
        | zero => simpa using h4
        | succ j' => simpa using hmin j' (by omega)
    · rintro ⟨i, hi, hmin⟩
      cases i with
      | zero =>
        simp only [List.drop_zero] at hi
        simp [extractYear4, hi]
      | succ i' =>
        have h0 : fourDigitAt (c :: cs) = none := by simpa using hmin 0 (by omega)
        have hrec : extractYear4 (c :: cs) = extractYear4 cs := by
          simp [extractYear4, h0]
        rw [hrec]
        exact ih.mpr ⟨i', by simpa using hi, fun j hj => by simpa using hmin (j + 1) (by omega)⟩

/-- C6: the year of the year-file is chosen by the exact chain: due-date
year if present, else start-date year if present, else the value of the
leftmost 4-digit run in the milestone title if any, else the current
calendar year at generation time; and the merge's truncating open targets
`<archive>/<derivedYear>.md`. -/
theorem milestone_year_chain :
    (∀ (s : Option PyDate) (d : PyDate) (name : Chars) (cy : Nat),
      milestoneYear s (some d) name cy = d.year) ∧
    (∀ (s : PyDate) (name : Chars) (cy : Nat),
      milestoneYear (some s) none name cy = s.year) ∧
    (∀ (name : Chars) (cy y : Nat), extractYear4 name = some y →
      milestoneYear none none name cy = y) ∧
    (∀ (name : Chars) (cy : Nat), extractYear4 name = none →
      milestoneYear none none name cy = cy) ∧
    (∀ (name : Chars) (y : Nat), extractYear4 name = some y ↔
      ∃ i, fourDigitAt (name.drop i) = some y ∧
        ∀ j, j < i → fourDigitAt (name.drop j) = none) ∧
    (∀ (rtp : List (Chars × Chars)) (name : Chars) (s d : Option PyDate)
        (issues : List Issue) (archiveDir ts : Chars) (cy : Nat) (existing : Chars)
        (ops : List FsOp),
      append_to_year_ops rtp name s d issues archiveDir ts cy existing = some ops →
      FsOp.openTrunc (yearFilePath archiveDir (milestoneYear s d name cy)) ∈ ops) := by
  refine ⟨?_, ?_, ?_, ?_, ?_, ?_⟩
  · intro s d name cy
    rfl
  · intro s name cy
    rfl
  · intro name cy y h
    simp [milestoneYear, h]
  · intro name cy h
    simp [milestoneYear, h]
  · intro name y
    exact extractYear4_iff name y
  · intro rtp name s d issues archiveDir ts cy existing ops h
    exact (append_ops_shape rtp name s d issues archiveDir ts cy existing ops h).2

set_option maxRecDepth 100000 in
/-- Witness for C6's theorem: title-derived year, current-year fallback,
and the concrete write target of `sampleTrace`. -/
theorem milestone_year_chain_witness :
    milestoneYear none none "Milestone 09/10/2025".toList 1999 = 2025 ∧
    milestoneYear none none "no year here".toList 1999 = 1999 ∧
    FsOp.openTrunc (yearFilePath "arch".toList
      (milestoneYear none (some ⟨2025, 3, 4⟩) "A".toList 2024)) ∈ sampleTrace := by
  refine ⟨?_, ?_, ?_⟩
  · exact milestone_year_chain.2.2.1 "Milestone 09/10/2025".toList 1999 2025 (by decide)
  · exact milestone_year_chain.2.2.2.1 "no year here".toList 1999 (by decide)
  · exact milestone_year_chain.2.2.2.2.2 [] "A".toList none (some ⟨2025, 3, 4⟩) []
      "arch".toList sampleTs 2024 "old\n".toList sampleTrace (by decide)

/-! Claim C7 -/

/-- C7: the three characters the code emits between the dates of the
header line are the mojibake sequence U+00E2 U+2020 U+2019 (`arrowGlyph`,
the double-encoded remains of the intended arrow), NOT the arrow U+2192;
shown on the spec's own end-to-end example, whose full render is computed
here. -/
theorem generate_changelog_header_mojibake :
    generate_changelog [("https://g/svc-a".toList, "Core".toList)] "Sprint 42".toList
        (some ⟨2025, 1, 1⟩) (some ⟨2025, 1, 15⟩)
        [⟨"Fix bug".toList, 7, [], "svc-a".toList, "https://g/svc-a".toList, 0⟩] =
      ("**Changelog - Sprint 42** (2025-01-01 ".toList ++ arrowGlyph
        ++ (" 2025-01-15)\n\n**Core** (1 issues)\n* Fix bug (svc-a#7)\n\n"
          ++ "---\nTotal: 1 issues closed\n").toList) ∧
    arrowGlyph ≠ [Char.ofNat 8594] := by
  constructor
  · decide
  · decide

/-! Claim C8 -/

theorem splitNl_ne_nil : ∀ l : Chars, splitNl l ≠ [] := by
  intro l
  cases l with
  | nil => simp [splitNl]
  | cons c cs =>
    simp only [splitNl]
    split
    · simp
    · split <;> simp

theorem splitNl_cons_ne (c : Char) (cs : Chars) (hc : ¬ c = '\n') (h : Chars)
    (t : List Chars) (hsp : splitNl cs = h :: t) : splitNl (c :: cs) = (c :: h) :: t := by
  simp [splitNl, hc, hsp]

theorem joinNl_cons_ne (l : Chars) (ls : List Chars) (h : ls ≠ []) :
    joinNl (l :: ls) = l ++ '\n' :: joinNl ls := by
  cases ls with
  | nil => exact absurd rfl h
  | cons l2 ls2 => rfl

theorem joinNl_append (xs ys : List Chars) (hx : xs ≠ []) (hy : ys ≠ []) :
    joinNl (xs ++ ys) = joinNl xs ++ '\n' :: joinNl ys := by
  induction xs with
  | nil => exact absurd rfl hx
  | cons x xs' ih =>
    cases xs' with
    | nil =>
      rw [List.singleton_append, joinNl_cons_ne x ys hy]
      rfl
    | cons x2 xs'' =>
      rw [List.cons_append, joinNl_cons_ne x ((x2 :: xs'') ++ ys) (by simp),
        joinNl_cons_ne x (x2 :: xs'') (by simp), ih (by simp)]
      simp [List.append_assoc]

theorem splitNl_append_nl (a b : Chars) :
    splitNl (a ++ '\n' :: b) = splitNl a ++ splitNl b := by
  induction a with
  | nil => simp [splitNl]
  | cons c a' ih =>
    by_cases hc : c = '\n'
    · subst hc
      simp [splitNl, ih]
    · obtain ⟨h, t, hht⟩ : ∃ h t, splitNl a' = h :: t := by
        cases hsp : splitNl a' with
        | nil => exact absurd hsp (splitNl_ne_nil a')
        | cons h t => exact ⟨h, t, rfl⟩
      have hsp2 : splitNl (a' ++ '\n' :: b) = h :: (t ++ splitNl b) := by
        rw [ih, hht, List.cons_append]
      rw [List.cons_append, splitNl_cons_ne c _ hc _ _ hsp2,
        splitNl_cons_ne c _ hc _ _ hht, List.cons_append]

theorem joinNl_splitNl : ∀ l : Chars, joinNl (splitNl l) = l := by
  intro l
  induction l with
  | nil => rfl
  | cons c cs ih =>
    by_cases hc : c = '\n'
    · subst hc
      rw [show splitNl ('\n' :: cs) = [] :: splitNl cs by simp [splitNl]]
      rw [joinNl_cons_ne [] (splitNl cs) (splitNl_ne_nil cs), ih]
      rfl
    · obtain ⟨h, t, hht⟩ : ∃ h t, splitNl cs = h :: t := by
        cases hsp : splitNl cs with
        | nil => exact absurd hsp (splitNl_ne_nil cs)
        | cons h t => exact ⟨h, t, rfl⟩
      have hl : splitNl (c :: cs) = (c :: h) :: t := by
        simp [splitNl, hc, hht]
      rw [hl]
      cases t with
      | nil =>
        have hcs : h = cs := by
          have h2 := ih
          rw [hht] at h2
          simpa [joinNl] using h2
        simp [joinNl, hcs]
      | cons t1 ts =>
        rw [joinNl_cons_ne (c :: h) (t1 :: ts) (by simp)]
        have h3 : h ++ '\n' :: joinNl (t1 :: ts) = cs := by
          have h2 := ih
          rw [hht, joinNl_cons_ne h (t1 :: ts) (by simp)] at h2
          exact h2
        rw [List.cons_append, h3]

theorem splitNl_joinNl : ∀ L : List Chars, L ≠ [] →
    splitNl (joinNl L) = (L.map splitNl).flatten := by
  intro L
  induction L with
  | nil =>
    intro h
    exact absurd rfl h
  | cons l ls ih =>
    intro _
    cases ls with
    | nil => simp [joinNl]
    | cons l2 ls2 =>
      rw [joinNl_cons_ne l (l2 :: ls2) (by simp), splitNl_append_nl, ih (by simp)]
      simp

theorem chunkLoop_ne_nil (maxLen : Nat) :
    ∀ (lines cur : List Chars) (n : Nat), cur ≠ [] → chunkLoop maxLen cur n lines ≠ [] := by
  intro lines
  induction lines with
  | nil =>
    intro cur n h
    cases cur with
    | nil => exact absurd rfl h
    | cons c cur' => simp [chunkLoop]
  | cons line rest ih =>
    intro cur n h
    simp only [chunkLoop]
    split
    · simp
    · exact ih (cur ++ [line]) _ (by simp)

theorem chunkLoop_join (maxLen : Nat) :
    ∀ (lines cur : List Chars) (n : Nat), cur ≠ [] →
      joinNl (chunkLoop maxLen cur n lines) = joinNl (cur ++ lines) := by
  intro lines
  induction lines with
  | nil =>
    intro cur n h
    cases cur with
    | nil => exact absurd rfl h
    | cons c cur' => simp [chunkLoop, joinNl]
  | cons line rest ih =>
    intro cur n h
    simp only [chunkLoop]
    split
    · have hne := chunkLoop_ne_nil maxLen rest [line] (line.length + 1) (by simp)
      rw [joinNl_cons_ne _ _ hne, ih [line] (line.length + 1) (by simp),
        List.singleton_append, ← joinNl_append cur (line :: rest) h (by simp)]
    · exact (ih (cur ++ [line]) _ (by simp)).trans (by simp [List.append_assoc])

theorem splitNl_replicate (n : Nat) :
    splitNl (List.replicate n 'a') = [List.replicate n 'a'] := by
  induction n with
  | zero => rfl
  | succ m ih =>
    rw [List.replicate_succ]
    simp only [splitNl, ih]
    rw [if_neg (by decide)]

/-- C8 (amended): text within the limit is returned unchanged as a single
chunk; longer text whose FIRST line fits within the limit is split only at
line boundaries — joining the chunks with newlines reproduces the text
exactly, and the concatenation of the chunks' line lists is exactly the
original line list in order.  When the first line already exceeds the
limit, the loop emits an empty initial chunk and the round trip gains a
leading newline (see the counterexample). -/
theorem chunk_preserves_lines (maxLen : Nat) (text : Chars) :
    (text.length ≤ maxLen → chunk_message maxLen text = [text]) ∧
    (maxLen < text.length →
      ∀ l0 ls, splitNl text = l0 :: ls → l0.length + 1 ≤ maxLen →
        joinNl (chunk_message maxLen text) = text ∧
        ((chunk_message maxLen text).map splitNl).flatten = splitNl text) := by
  constructor
  · intro h
    simp [chunk_message, h]
  · intro hlong l0 ls hsp hfit
    have hnotle : ¬ text.length ≤ maxLen := by omega
    have hc : chunk_message maxLen text = chunkLoop maxLen [l0] (l0.length + 1) ls := by
      simp only [chunk_message, hnotle, if_false, hsp, chunkLoop]
      rw [if_neg (by omega)]
      simp
    have hj : joinNl (chunk_message maxLen text) = text := by
      rw [hc, chunkLoop_join maxLen ls [l0] (l0.length + 1) (by simp),
        List.singleton_append, ← hsp, joinNl_splitNl]
    refine ⟨hj, ?_⟩
    have hne : chunk_message maxLen text ≠ [] := by
      rw [hc]
      exact chunkLoop_ne_nil maxLen ls [l0] _ (by simp)
    rw [← splitNl_joinNl (chunk_message maxLen text) hne, hj]

/-- Witness for C8's theorem: a short text round-trips as one chunk; a
four-line text over the limit splits at line boundaries and joins back to
the original. -/
theorem chunk_preserves_lines_witness :
    chunk_message 20 "short".toList = ["short".toList] ∧
    joinNl (chunk_message 8 "ab\ncd\nef\ngh".toList) = "ab\ncd\nef\ngh".toList ∧
    ((chunk_message 8 "ab\ncd\nef\ngh".toList).map splitNl).flatten =
      splitNl "ab\ncd\nef\ngh".toList := by
  have h2 := (chunk_preserves_lines 8 "ab\ncd\nef\ngh".toList).2 (by decide) "ab".toList
    ["cd".toList, "ef".toList, "gh".toList] (by decide) (by decide)
  exact ⟨(chunk_preserves_lines 20 "short".toList).1 (by decide), h2.1, h2.2⟩

/-- C8 counterexample to the claim as stated, at the publisher's actual
limit 3900: a single input line of 3901 characters exceeds the limit, the
loop pushes an empty initial chunk, and the chunks' lines are an empty
line followed by the original line — not the original text's lines. -/
theorem chunk_preserves_lines_cex :
    chunk_message 3900 (List.replicate 3901 'a') = [[], List.replicate 3901 'a'] ∧
    ((chunk_message 3900 (List.replicate 3901 'a')).map splitNl).flatten ≠
      splitNl (List.replicate 3901 'a') := by
  have hsp := splitNl_replicate 3901
  have hlen : (List.replicate 3901 'a').length = 3901 := by
    rw [List.length_replicate]
  have hc : chunk_message 3900 (List.replicate 3901 'a') = [[], List.replicate 3901 'a'] := by
    show (if (List.replicate 3901 'a').length ≤ 3900 then [List.replicate 3901 'a']
      else chunkLoop 3900 [] 0 (splitNl (List.replicate 3901 'a'))) =
      [[], List.replicate 3901 'a']
    rw [if_neg (by rw [hlen]; omega), hsp]
    simp only [chunkLoop]
    rw [if_pos (by rw [hlen]; omega)]
    simp only [chunkLoop, joinNl]
    rw [if_neg (by rw [List.isEmpty_cons]; exact Bool.false_ne_true)]
  refine ⟨hc, ?_⟩
  have hmap : ([[], List.replicate 3901 'a'].map splitNl) =
      [[[]], [List.replicate 3901 'a']] := by
    rw [List.map_cons, List.map_cons, List.map_nil, hsp]
    rfl
  rw [hc, hsp, hmap]
  intro hcontra
  have hflat : ([[[]], [List.replicate 3901 'a']] : List (List Chars)).flatten =
      [[], List.replicate 3901 'a'] := rfl
  rw [hflat] at hcontra
  have hlen2 := congrArg List.length hcontra
  simp only [List.length_cons, List.length_nil] at hlen2
  omega

/-! Claim C9 -/

theorem lookupA_none {α : Type} (m : List (Chars × α)) (key : Chars)
    (h : ∀ kv ∈ m, kv.1 ≠ key) : lookupA m key = none := by
  induction m with
  | nil => rfl
  | cons kv rest ih =>
    obtain ⟨k, v⟩ := kv
    have hk : k ≠ key := h (k, v) (by simp)
    simp only [lookupA, if_neg hk]
    exact ih (fun kv hm => h kv (by simp [hm]))

theorem groupAdd_uncat (l : List Issue) (i : Issue) :
    groupAdd [(uncategorized, l)] uncategorized i = [(uncategorized, l ++ [i])] := by
  simp [groupAdd]

theorem foldl_groupAdd_uncat (issues : List Issue) :
    ∀ l, issues.foldl (fun g i => groupAdd g uncategorized i) [(uncategorized, l)] =
      [(uncategorized, l ++ issues)] := by
  induction issues with
  | nil =>
    intro l
    simp
  | cons i rest ih =>
    intro l
    simp only [List.foldl_cons, groupAdd_uncat]
    rw [ih (l ++ [i])]
    simp

theorem group_issues_cli_go_unmatched (mapping : List (Chars × List Chars)) :
    ∀ (issues : List Issue) (acc : List (Chars × List Issue)),
      (∀ kv ∈ mapping, ∀ i ∈ issues, kv.1 ≠ i.project_url) →
      group_issues_cli_go mapping acc issues =
        some (issues.foldl (fun g i => groupAdd g uncategorized i) acc) := by
  intro issues
  induction issues with
  | nil =>
    intro acc h
    rfl
  | cons i rest ih =>
    intro acc h
    have hlook : lookupA mapping i.project_url = none :=
      lookupA_none mapping i.project_url (fun kv hm => h kv hm i (by simp))
    simp only [group_issues_cli_go, hlook]
    rw [ih (groupAdd acc uncategorized i) (fun kv hm j hj => h kv hm j (by simp [hj]))]
    rfl

/-- C9: `main` constructs the generator with the product-name →
repository-list mapping, while the grouping looks each issue up by its
`project_url` among the mapping's keys; when no product name equals any
issue's project URL, every lookup misses and every fetched issue lands in
the `Uncategorized` bucket, regardless of the configured repository →
product assignments. -/
theorem cli_grouping_all_uncategorized (mapping : List (Chars × List Chars))
    (issues : List Issue)
    (h : ∀ kv ∈ mapping, ∀ i ∈ issues, kv.1 ≠ i.project_url) :
    group_issues_by_product_cli mapping issues =
      some (if issues.isEmpty then [] else [(uncategorized, issues)]) := by
  rw [show group_issues_by_product_cli mapping issues =
    group_issues_cli_go mapping [] issues from rfl]
  rw [group_issues_cli_go_unmatched mapping issues [] h]
  cases issues with
  | nil => rfl
  | cons i rest =>
    simp only [List.foldl_cons]
    rw [show groupAdd [] uncategorized i = [(uncategorized, [i])] from rfl,
      foldl_groupAdd_uncat rest [i]]
    simp

/-- Witness for C9's theorem: two issues from repositories that ARE in the
configured repository lists still land in `Uncategorized`, because the
lookup compares their URLs with the product names. -/
theorem cli_grouping_all_uncategorized_witness :
    group_issues_by_product_cli
        [("ProductA".toList, ["https://g/r1".toList, "https://g/r2".toList])]
        [⟨"T1".toList, 1, [], "r1".toList, "https://g/r1".toList, 0⟩,
         ⟨"T2".toList, 2, [], "r2".toList, "https://g/r2".toList, 0⟩] =
      some [(uncategorized,
        [⟨"T1".toList, 1, [], "r1".toList, "https://g/r1".toList, 0⟩,
         ⟨"T2".toList, 2, [], "r2".toList, "https://g/r2".toList, 0⟩])] := by
  simpa using cli_grouping_all_uncategorized
    [("ProductA".toList, ["https://g/r1".toList, "https://g/r2".toList])]
    [⟨"T1".toList, 1, [], "r1".toList, "https://g/r1".toList, 0⟩,
     ⟨"T2".toList, 2, [], "r2".toList, "https://g/r2".toList, 0⟩] (by decide)

end Loglady
